/-
Verification of the Zenith terminal-markup library against its
natural-language specification.

The development shallowly embeds the Python sources:
  * `src/zenith/color.py`   (the local `Color` dataclass),
  * `src/zenith/markup.py`  (the markup compiler pipeline),
  * `src/zenith/lru_cache.py` (the `LRUCache` class).

Python strings are modelled as `List Char` (`CStr`); machine integers are
`Nat`; fallible code returns `Option`/`Except`.  Parts of the program that
live in the external `slate` package (the `Span` class, `UNSETTERS`,
`NAMED_COLORS`, slate's `Color`) are modelled from the specification; every
such definition carries a doc comment starting with `Modelled from the
spec:`.  The floating-point luminance computation is modelled over `ℝ`;
where the pipeline needs slate's luminance *comparison* to stay executable,
the comparison is passed as an explicit oracle parameter.
-/
import Mathlib

/-- Python strings, modelled as lists of characters. -/
abbrev CStr := List Char

namespace PyStr

/-- Python `str.split(sep)` for a one-character separator: keeps empty
fields (so `"a;;b".split(";") == ["a", "", "b"]`). -/
def split_on (sep : Char) (s : CStr) : List CStr :=
  s.foldr
    (fun c acc =>
      match acc with
      | [] => [[c]]
      | w :: ws => if c = sep then [] :: w :: ws else (c :: w) :: ws)
    [[]]

/-- Python `str.split()` with no argument: splits on runs of whitespace and
discards empty fields. -/
def split_ws (s : CStr) : List CStr :=
  (split_on ' ' s).filter (fun w => !w.isEmpty)

/-- Python `str.rstrip(" ")`: drops trailing spaces. -/
def rstrip_spaces (s : CStr) : CStr :=
  (s.reverse.dropWhile (fun c => c = ' ')).reverse

/-- Python `str.replace(pat, rep)`: replaces every occurrence, scanning left
to right without overlap.  `fuel` bounds the recursion (callers pass
`s.length + 1`, enough since each step consumes at least one character for
a non-empty pattern). -/
def replace_all (fuel : Nat) (pat rep s : CStr) : CStr :=
  match fuel with
  | 0 => s
  | fuel + 1 =>
    match s with
    | [] => []
    | c :: rest =>
      if pat.isPrefixOf s ∧ pat ≠ [] then
        rep ++ replace_all fuel pat rep (s.drop pat.length)
      else
        c :: replace_all fuel pat rep rest

/-- Python `str.replace` with the fuel filled in. -/
def replace (s pat rep : CStr) : CStr :=
  replace_all (s.length + 1) pat rep s

/-- The numeric value of a list of decimal digits (helper for `int(...)`). -/
def parse_nat (s : CStr) : Nat :=
  s.foldl (fun acc c => acc * 10 + (c.toNat - '0'.toNat)) 0

/-- Python `str.isdigit()`: non-empty and all decimal digits. -/
def py_isdigit (s : CStr) : Bool :=
  !s.isEmpty && s.all Char.isDigit

/-- Python `str(n)` for a natural number. -/
def nat_chars (n : Nat) : CStr :=
  Nat.toDigits 10 n

/-- Drops a single leading occurrence of `c` (used to model the regexes'
optional one-character prefixes such as `@?`). -/
def drop_one (c : Char) (s : CStr) : CStr :=
  match s with
  | [] => []
  | x :: rest => if x = c then rest else s

/-- Python `str.lstrip(chars)` for a single stripped character: removes
every leading occurrence. -/
def lstrip (c : Char) (s : CStr) : CStr :=
  s.dropWhile (fun x => x = c)

/-- The value of a hexadecimal digit. -/
def hex_val (c : Char) : Nat :=
  if '0' ≤ c ∧ c ≤ '9' then c.toNat - '0'.toNat
  else if 'a' ≤ c ∧ c ≤ 'f' then c.toNat - 'a'.toNat + 10
  else if 'A' ≤ c ∧ c ≤ 'F' then c.toNat - 'A'.toNat + 10
  else 0

/-- Python `int(s, base=16)` on a string of hex digits. -/
def parse_hex (s : CStr) : Nat :=
  s.foldl (fun acc c => acc * 16 + hex_val c) 0

/-- Whether a character is a hexadecimal digit (`[0-9a-fA-F]`). -/
def is_hex_digit (c : Char) : Bool :=
  ('0' ≤ c && c ≤ '9') || ('a' ≤ c && c ≤ 'f') || ('A' ≤ c && c ≤ 'F')

end PyStr

namespace Zenith

open PyStr

/-! ## Embedding of `src/zenith/color.py` -/

/-- The value stored in the `rgb` field of `Color`.  The dataclass
annotation says `tuple[int, int, int]`, but Python does not enforce it:
`Color.from_ansi`'s 24-bit branch stores the raw list of `;`-separated
string parts instead.  The sum type records which of the two actually
happened. -/
inductive RgbVal where
  | ints (r g b : Nat) : RgbVal
  | strs (parts : List CStr) : RgbVal
deriving DecidableEq

/-- The `OFF_WHITE` constant of `color.py`. -/
def OFF_WHITE : Nat × Nat × Nat := (245, 245, 245)

/-- The `OFF_BLACK` constant of `color.py`. -/
def OFF_BLACK : Nat × Nat × Nat := (35, 35, 35)

/-- The frozen `Color` dataclass of `src/zenith/color.py`. -/
structure Color where
  rgb : RgbVal
  is_background : Bool := false
deriving DecidableEq

namespace Color

/-- The index/background conversion block of `Color.from_ansi` (lines
34-48 of `color.py`): two sequential `if`/`elif` blocks that convert the
16-color SGR codes to palette indices 0-15 and set the background flag for
the 40s/100s ranges. -/
def convert_index (index : Nat) : Nat × Bool :=
  let (index, is_background) :=
    if 30 ≤ index ∧ index < 38 then (index - 30, false)
    else if 40 ≤ index ∧ index < 48 then (index - 40, true)
    else (index, false)
  if 90 ≤ index ∧ index < 98 then (index - 82, is_background)
  else if 100 ≤ index ∧ index < 108 then (index - 92, true)
  else (index, is_background)

/-- The `Color.from_ansi` classmethod of `src/zenith/color.py`.

The `COLOR_TABLE` it indexes lives in `zenith/color_info.py`, which is not
part of the sources; it is passed here as a parameter (a 256-entry table of
rgb triples).  Failures the Python code leaves unhandled (`int(...)` on a
non-numeral, an out-of-range table index) are modelled as `none`. -/
def from_ansi (table : Nat → Nat × Nat × Nat) (ansi : CStr) : Option Color :=
  let parts := split_on ';' ansi
  if 3 < parts.length then
    -- `return Color((parts[2:]), is_background=parts[0].startswith("4"))`:
    -- note that the parts are *not* converted to integers.
    some ⟨.strs (parts.drop 2), List.isPrefixOf ['4'] (parts.headD [])⟩
  else
    let last := (parts.getLast?).getD []
    if py_isdigit last then
      let index := parse_nat last
      let (index, is_background) :=
        if parts.length = 1 then convert_index index else (index, false)
      if index < 256 then some ⟨.ints (table index).1 (table index).2.1 (table index).2.2, is_background⟩
      else none
    else none

/-- The rgb triple a `Color` behaves as numerically.  For the `strs` case
Python would apply `float(...)` to each part when computing luminance; that
coercion is modelled for numeric parts (the only ones the program ever
produces). -/
def rgb_nat (c : Color) : Nat × Nat × Nat :=
  match c.rgb with
  | .ints r g b => (r, g, b)
  | .strs parts =>
    (parse_nat ((parts.headD []).filter Char.isDigit),
     parse_nat (((parts.drop 1).headD []).filter Char.isDigit),
     parse_nat (((parts.drop 2).headD []).filter Char.isDigit))

/-- The `_linearize` helper inside `Color.luminance`: sRGB to linear. -/
noncomputable def srgb_linearize (x : ℝ) : ℝ :=
  if x ≤ 0.04045 then x / 12.92
  else ((x + 0.055) / 1.055) ^ (2.4 : ℝ)

/-- The `Color.luminance` property: perceived luminance over the reals
(the Python code computes with IEEE doubles). -/
noncomputable def luminance (c : Color) : ℝ :=
  0.2126 * srgb_linearize ((c.rgb_nat.1 : ℝ) / 255)
    + 0.7152 * srgb_linearize ((c.rgb_nat.2.1 : ℝ) / 255)
    + 0.0722 * srgb_linearize ((c.rgb_nat.2.2 : ℝ) / 255)

/-- The `Color.contrast` property: off-black when luminance exceeds 0.179,
off-white otherwise, keeping the background flag. -/
noncomputable def contrast (c : Color) : Color :=
  if c.luminance > 0.179 then ⟨.ints 35 35 35, c.is_background⟩
  else ⟨.ints 245 245 245, c.is_background⟩

/-- The `Color.as_background` method. -/
def as_background (c : Color) (setting : Bool := true) : Color :=
  ⟨c.rgb, setting⟩

end Color

/-! ## Model of the external `slate` collaborators

The markup module imports `Color`, `Span`, `UNSETTERS` and `NAMED_COLORS`
from the external `slate` package, which is not part of the sources.  The
definitions below are modelled from the specification (sections 3, 4.1 and
4.4) and pinned by the repository's own test expectations. -/

/-- Modelled from the spec: the representation a slate color keeps, so that
serialization reproduces the original encoding (standard 16-color code,
256-color index, or 24-bit triple). -/
inductive SCForm where
  | std (n : Nat) : SCForm
  | idx (n : Nat) : SCForm
  | rgb (r g b : Nat) : SCForm
deriving DecidableEq

/-- Modelled from the spec: slate's immutable color value (`slate.color.Color`),
a representation plus a background flag. -/
structure SlateColor where
  form : SCForm
  is_background : Bool
deriving DecidableEq

namespace SlateColor

open PyStr

/-- Modelled from the spec: slate's `Color.from_ansi` over an SGR parameter
body.  A body of more than 3 `;`-separated parts is a 24-bit color, a
single part is a standard 16-color code, and a `38;5;N`/`48;5;N` body is an
indexed color; background is inferred from a leading `4`. -/
def from_ansi (ansi : CStr) : SlateColor :=
  let parts := split_on ';' ansi
  if 3 < parts.length then
    ⟨.rgb (parse_nat ((parts.drop 2).headD []))
          (parse_nat ((parts.drop 3).headD []))
          (parse_nat ((parts.drop 4).headD [])),
     List.isPrefixOf ['4'] (parts.headD [])⟩
  else if parts.length = 1 then
    let code := parse_nat (parts.headD [])
    if 30 ≤ code ∧ code < 38 then ⟨.std (code - 30), false⟩
    else if 40 ≤ code ∧ code < 48 then ⟨.std (code - 40), true⟩
    else if 90 ≤ code ∧ code < 98 then ⟨.std (code - 82), false⟩
    else if 100 ≤ code ∧ code < 108 then ⟨.std (code - 92), true⟩
    else ⟨.std code, false⟩  -- garbage input, never produced by the program
  else
    ⟨.idx (parse_nat ((parts.getLast?).getD [])), List.isPrefixOf ['4'] (parts.headD [])⟩

/-- Modelled from the spec: slate's `Color.from_hex` on a `#rrggbb` string. -/
def from_hex (hex : CStr) : SlateColor :=
  let c := lstrip '#' hex
  ⟨.rgb (parse_hex (c.take 2)) (parse_hex ((c.drop 2).take 2)) (parse_hex ((c.drop 4).take 2)),
   false⟩

/-- Modelled from the spec: slate's `Color.as_background`. -/
def as_background (c : SlateColor) (setting : Bool := true) : SlateColor :=
  ⟨c.form, setting⟩

/-- Modelled from the spec: slate's `Color.contrast` picks off-black when
the color's luminance exceeds 0.179 and off-white otherwise, keeping the
background flag.  The floating-point luminance comparison is external to
the embedding and is passed as the oracle `lum_gt`. -/
def contrast (lum_gt : SlateColor → Bool) (c : SlateColor) : SlateColor :=
  if lum_gt c then ⟨.rgb 35 35 35, c.is_background⟩
  else ⟨.rgb 245 245 245, c.is_background⟩

/-- Modelled from the spec: the SGR parameter string a slate color
serializes to inside a span's escape prefix (pinned by the repository's
tests: index 6 foreground prints `36`, index 61 background prints
`48;5;61`, a 24-bit red foreground prints `38;2;255;0;0`). -/
def code (c : SlateColor) : CStr :=
  match c.form with
  | .std n =>
    if c.is_background then
      nat_chars (if n < 8 then 40 + n else 92 + n)
    else
      nat_chars (if n < 8 then 30 + n else 82 + n)
  | .idx n =>
    nat_chars (if c.is_background then 48 else 38) ++ (";5;".data) ++ nat_chars n
  | .rgb r g b =>
    nat_chars (if c.is_background then 48 else 38) ++ (";2;".data)
      ++ nat_chars r ++ [';'] ++ nat_chars g ++ [';'] ++ nat_chars b

end SlateColor

open PyStr

/-- Modelled from the spec: the named-color table (`slate.color_info
.NAMED_COLORS`), mapping CSS-style names to `#rrggbb` strings.  Only the
entries exercised by the development and the repository's tests are
listed. -/
def NAMED_COLORS : List (CStr × CStr) :=
  [("red".data, "#ff0000".data),
   ("black".data, "#000000".data),
   ("white".data, "#ffffff".data),
   ("yellow".data, "#ffff00".data),
   ("blue".data, "#0000ff".data),
   ("green".data, "#008000".data),
   ("brown".data, "#a52a2a".data)]

/-- Association-list lookup (Python `dict.get`). -/
def assoc_get {α : Type} (l : List (CStr × α)) (k : CStr) : Option α :=
  (l.find? (fun p => p.1 = k)).map (fun p => p.2)

/-- Modelled from the spec: slate's `UNSETTERS` table mapping attribute
names to the SGR code that turns the attribute off (pinned by the tests:
`bold` unsets with `22`, a foreground clear emits `39`; the remaining
entries are the standard SGR unset codes). -/
def UNSETTERS : List (CStr × CStr) :=
  [("bold".data, "22".data),
   ("dim".data, "22".data),
   ("italic".data, "23".data),
   ("underline".data, "24".data),
   ("blink".data, "25".data),
   ("fast_blink".data, "26".data),
   ("invert".data, "27".data),
   ("conceal".data, "28".data),
   ("strike".data, "29".data),
   ("foreground".data, "39".data),
   ("background".data, "49".data)]

/-- Lookup in `UNSETTERS` (total: the keys below are always present). -/
def unsetter (key : CStr) : CStr :=
  (assoc_get UNSETTERS key).getD []

/-! ## Embedding of `src/zenith/markup.py`: style state and spans -/

/-- The `StyleMap` TypedDict of `markup.py`: the mutable record of
currently active attributes. -/
structure StyleMap where
  bold : Bool
  dim : Bool
  italic : Bool
  underline : Bool
  blink : Bool
  fast_blink : Bool
  invert : Bool
  conceal : Bool
  strike : Bool
  foreground : Option SlateColor
  background : Option SlateColor
  hyperlink : CStr
deriving DecidableEq

/-- The `_get_style_map` helper: an empty style map. -/
def get_style_map : StyleMap :=
  ⟨false, false, false, false, false, false, false, false, false, none, none, []⟩

/-- Modelled from the spec: the attribute payload of a slate `Span` (text
plus a value copy of the style state, plus slate's `reset_after` flag). -/
structure SpanData where
  text : CStr
  bold : Bool := false
  dim : Bool := false
  italic : Bool := false
  underline : Bool := false
  blink : Bool := false
  fast_blink : Bool := false
  invert : Bool := false
  conceal : Bool := false
  strike : Bool := false
  foreground : Option SlateColor := none
  background : Option SlateColor := none
  hyperlink : CStr := []
  reset_after : Bool := true
deriving DecidableEq

/-- A span-sequence element: either a real span or the `FULL_RESET`
sentinel (the source compares with `is`, i.e. object identity, so the
sentinel is a distinguished constructor). -/
inductive SpanItem where
  | full_reset : SpanItem
  | span (d : SpanData) : SpanItem
deriving DecidableEq

/-- The ESC character. -/
def esc : CStr := ['\x1b']

/-- The string `Span(plain, **styles)` builds: a span carrying the current
style snapshot (slate's `reset_after` default is kept). -/
def span_of_styles (text : CStr) (st : StyleMap) : SpanData :=
  { text := text
    bold := st.bold, dim := st.dim, italic := st.italic
    underline := st.underline, blink := st.blink, fast_blink := st.fast_blink
    invert := st.invert, conceal := st.conceal, strike := st.strike
    foreground := st.foreground, background := st.background
    hyperlink := st.hyperlink }

namespace SpanData

/-- Modelled from the spec: the SGR parameter codes a span embeds in its
own escape prefix — foreground, then background, then the flag codes 1-9
in attribute order (pinned by the tests: `[test @red]` yields
`38;2;165;42;42;48;2;255;0;0;1`). -/
def sgr_codes (d : SpanData) : List CStr :=
  (match d.foreground with | some c => [c.code] | none => [])
    ++ (match d.background with | some c => [c.code] | none => [])
    ++ (if d.bold then ["1".data] else [])
    ++ (if d.dim then ["2".data] else [])
    ++ (if d.italic then ["3".data] else [])
    ++ (if d.underline then ["4".data] else [])
    ++ (if d.blink then ["5".data] else [])
    ++ (if d.fast_blink then ["6".data] else [])
    ++ (if d.invert then ["7".data] else [])
    ++ (if d.conceal then ["8".data] else [])
    ++ (if d.strike then ["9".data] else [])

/-- Modelled from the spec: `str(Span(...))` — an OSC8 hyperlink opener
when a hyperlink is set, the SGR prefix when any code is present, the
text, a full reset when `reset_after` is set, and the OSC8 closer for a
hyperlink (pinned by the hyperlink tests). -/
def str (d : SpanData) : CStr :=
  let codes := d.sgr_codes
  let sgr := if codes.isEmpty then [] else esc ++ ['['] ++ List.intercalate [';'] codes ++ ['m']
  let core := sgr ++ d.text ++ (if d.reset_after then esc ++ "[0m".data else [])
  if d.hyperlink ≠ [] then
    esc ++ "]8;;".data ++ d.hyperlink ++ esc ++ ['\\'] ++ core ++ esc ++ "]8;;".data ++ esc ++ ['\\']
  else core

end SpanData

/-! ## Embedding of `combine_spans` -/

/-- One iteration of the `combine_spans` loop on a non-sentinel span:
computes the changed attributes (`new` in the source, iterating the span's
attributes in style-map key order), the batched unsetter codes (`unset`),
the emitted string, and the updated tracked state. -/
def span_step (styles : StyleMap) (d : SpanData) : CStr × StyleMap :=
  -- `styles[key] != value` for every non-hyperlink attribute
  let cb := styles.bold ≠ d.bold
  let cd := styles.dim ≠ d.dim
  let ci := styles.italic ≠ d.italic
  let cu := styles.underline ≠ d.underline
  let cbl := styles.blink ≠ d.blink
  let cfb := styles.fast_blink ≠ d.fast_blink
  let cin := styles.invert ≠ d.invert
  let cco := styles.conceal ≠ d.conceal
  let cst := styles.strike ≠ d.strike
  let cfg := styles.foreground ≠ d.foreground
  let cbg := styles.background ≠ d.background
  -- hyperlink: `value not in ["", styles[key]]` adds it to `new` directly;
  -- otherwise the generic inequality check applies (and never unsets)
  let clink :=
    if d.hyperlink ≠ [] ∧ d.hyperlink ≠ styles.hyperlink then true
    else styles.hyperlink ≠ d.hyperlink
  -- `unset`: changed attributes whose new value is falsy, except hyperlink,
  -- collected in attribute order
  let unset :=
    (if cb ∧ d.bold = false then [unsetter ("bold".data)] else [])
      ++ (if cd ∧ d.dim = false then [unsetter ("dim".data)] else [])
      ++ (if ci ∧ d.italic = false then [unsetter ("italic".data)] else [])
      ++ (if cu ∧ d.underline = false then [unsetter ("underline".data)] else [])
      ++ (if cbl ∧ d.blink = false then [unsetter ("blink".data)] else [])
      ++ (if cfb ∧ d.fast_blink = false then [unsetter ("fast_blink".data)] else [])
      ++ (if cin ∧ d.invert = false then [unsetter ("invert".data)] else [])
      ++ (if cco ∧ d.conceal = false then [unsetter ("conceal".data)] else [])
      ++ (if cst ∧ d.strike = false then [unsetter ("strike".data)] else [])
      ++ (if cfg ∧ d.foreground = none then [unsetter ("foreground".data)] else [])
      ++ (if cbg ∧ d.background = none then [unsetter ("background".data)] else [])
  let unset_str :=
    if unset.length = 0 then []
    else esc ++ ['['] ++ List.intercalate [';'] unset ++ ['m']
  -- `Span(**new, text=span.text, reset_after=False)`: attributes absent
  -- from `new` take the Span defaults
  let emitted : SpanData :=
    { text := d.text
      bold := if cb then d.bold else false
      dim := if cd then d.dim else false
      italic := if ci then d.italic else false
      underline := if cu then d.underline else false
      blink := if cbl then d.blink else false
      fast_blink := if cfb then d.fast_blink else false
      invert := if cin then d.invert else false
      conceal := if cco then d.conceal else false
      strike := if cst then d.strike else false
      foreground := if cfg then d.foreground else none
      background := if cbg then d.background else none
      hyperlink := if clink then d.hyperlink else []
      reset_after := false }
  -- `styles.update(**new)`
  let styles' : StyleMap :=
    { bold := if cb then d.bold else styles.bold
      dim := if cd then d.dim else styles.dim
      italic := if ci then d.italic else styles.italic
      underline := if cu then d.underline else styles.underline
      blink := if cbl then d.blink else styles.blink
      fast_blink := if cfb then d.fast_blink else styles.fast_blink
      invert := if cin then d.invert else styles.invert
      conceal := if cco then d.conceal else styles.conceal
      strike := if cst then d.strike else styles.strike
      foreground := if cfg then d.foreground else styles.foreground
      background := if cbg then d.background else styles.background
      hyperlink := if clink then d.hyperlink else styles.hyperlink }
  (unset_str ++ emitted.str, styles')

/-- The `combine_spans` loop with the tracked style state made explicit:
returns the produced string together with the final state. -/
def combine_run (styles : StyleMap) : List SpanItem → CStr × StyleMap
  | [] => ([], styles)
  | .full_reset :: rest =>
    -- `buff += "\x1b[0m"; styles = _get_style_map()`
    let (b, s) := combine_run get_style_map rest
    (esc ++ "[0m".data ++ b, s)
  | .span d :: rest =>
    let (b1, s1) := span_step styles d
    let (b2, s2) := combine_run s1 rest
    (b1 ++ b2, s2)

/-- The `combine_spans` function of `markup.py`. -/
def combine_spans (spans : List SpanItem) : CStr :=
  (combine_run get_style_map spans).1

/-! ## Embedding of the tag parser (`parse_color`, `RE_COLOR`, `_apply_tag`) -/

/-- The error type of `src/zenith/exceptions.py`: `ZmlNameError` and
`ZmlSemanticsError`, each carrying the offending tag, an optional context
string and the `expected_type` label. -/
inductive ZmlErr where
  | name_err (tag : CStr) (context : Option CStr) (expected_type : CStr) : ZmlErr
  | semantics_err (tag : CStr) (context : Option CStr) (expected_type : CStr) : ZmlErr
deriving DecidableEq

/-- External behavior the pipeline depends on but that is not part of the
sources: slate's floating-point luminance comparison (used by
`Color.contrast`), and Python's float `repr` of `alpha / 255` (used only
by `parse_color`'s 8-hex-digit alpha branch, which no claim exercises). -/
structure Ext where
  lum_gt : SlateColor → Bool
  frepr : Nat → CStr

/-- The `parse_color` function of `markup.py`. -/
def parse_color (frepr : Nat → CStr) (color : CStr) (background : Bool) : Except ZmlErr CStr :=
  let bg10 := if background then 10 else 0  -- `background *= 10`
  let color := lstrip '@' color
  if py_isdigit color then
    let index := parse_nat color
    if index < 8 then .ok (nat_chars (30 + bg10 + index))
    else if index < 16 then
      -- `index += 2  # Skip codes 38 & 48`
      .ok (nat_chars (80 + bg10 + (index + 2)))
    else if index < 256 then
      .ok (nat_chars (38 + bg10) ++ ";5;".data ++ nat_chars index)
    else
      .error (.name_err color (some ("Color tags should be in the range 0-255.".data)) ("color".data))
  else
    let color := (assoc_get NAMED_COLORS color).getD color
    let color :=
      if color.head? = some '#' then
        let c := lstrip '#' color
        let alpha := c.drop 6
        let base :=
          List.intercalate [';']
            [nat_chars (parse_hex (c.take 2)),
             nat_chars (parse_hex ((c.drop 2).take 2)),
             nat_chars (parse_hex ((c.drop 4).take 2))]
        if alpha ≠ [] then base ++ [';'] ++ frepr (parse_hex alpha) else base
      else color
    .ok (nat_chars (38 + bg10) ++ ";2;".data ++ color)

/-- Consumes exactly `k` decimal digits, returning the remainder. -/
def digits_then (k : Nat) (s : CStr) : Option CStr :=
  match k, s with
  | 0, s => some s
  | k + 1, c :: rest => if c.isDigit then digits_then k rest else none
  | _ + 1, [] => none

/-- The `RE_MARKUP` companion regex `RE_COLOR`
(`(?:^@?([\d]{1,3})$)|(?:@?#?([0-9a-fA-F]{6}))|(@?\d{1,3};\d{1,3};\d{1,3})`)
as a Boolean `re.match` test: the first alternative is fully anchored, the
other two only need to match a prefix. -/
def re_color_match (s : CStr) : Bool :=
  let alt1 :=
    let t := drop_one '@' s
    !t.isEmpty && t.length ≤ 3 && t.all Char.isDigit
  let alt2 :=
    let t := drop_one '#' (drop_one '@' s)
    6 ≤ t.length && (t.take 6).all is_hex_digit
  let alt3 :=
    let t := drop_one '@' s
    [1, 2, 3].any fun k1 =>
      match digits_then k1 t with
      | some (';' :: r1) =>
        [1, 2, 3].any fun k2 =>
          match digits_then k2 r1 with
          | some (';' :: r2) => [1, 2, 3].any fun k3 => (digits_then k3 r2).isSome
          | _ => false
      | _ => false
  alt1 || alt2 || alt3

/-- The names the source's `tag in styles` membership test matches for the
nine boolean flags, in style-map key order.

NOTE: in the source the test also matches the remaining keys
`"foreground"`, `"background"` and `"hyperlink"`, in which case Python
stores a raw boolean into those fields — a dynamic-typing artifact no
claim exercises; the typed embedding covers the nine flags. -/
def flag_names : List CStr :=
  ["bold".data, "dim".data, "italic".data, "underline".data, "blink".data,
   "fast_blink".data, "invert".data, "conceal".data, "strike".data]

/-- Sets the flag named `name` (`styles[tag] = not is_unsetter`). -/
def set_flag (st : StyleMap) (name : CStr) (v : Bool) : StyleMap :=
  if name = "bold".data then { st with bold := v }
  else if name = "dim".data then { st with dim := v }
  else if name = "italic".data then { st with italic := v }
  else if name = "underline".data then { st with underline := v }
  else if name = "blink".data then { st with blink := v }
  else if name = "fast_blink".data then { st with fast_blink := v }
  else if name = "invert".data then { st with invert := v }
  else if name = "conceal".data then { st with conceal := v }
  else if name = "strike".data then { st with strike := v }
  else st

/-- The `_apply_tag` function of `markup.py` (the source mutates the style
map; the embedding returns the new map). -/
def apply_tag (ext : Ext) (tag : CStr) (st : StyleMap) : Except ZmlErr StyleMap :=
  if tag = "/".data then .ok get_style_map
  else
    let is_unsetter := List.isPrefixOf ['/'] tag
    let is_background := List.isPrefixOf ['@'] tag
    let tag := lstrip '@' (lstrip '/' tag)
    if tag ∈ flag_names ∨ tag = "fg".data ∨ tag = "bg".data then
      if tag = "fg".data then .ok { st with foreground := none }
      else if tag = "bg".data then .ok { st with background := none }
      else .ok (set_flag st tag (!is_unsetter))
    else if re_color_match tag then do
      let code ← parse_color ext.frepr tag is_background
      let c := SlateColor.from_ansi code
      .ok (if is_background then { st with background := some c }
           else { st with foreground := some c })
    else if (assoc_get NAMED_COLORS tag).isSome then
      let c := (SlateColor.from_hex ((assoc_get NAMED_COLORS tag).getD [])).as_background is_background
      .ok (if is_background then { st with background := some c }
           else { st with foreground := some c })
    else if List.isPrefixOf ['~'] tag then
      .ok { st with hyperlink := if is_unsetter then [] else tag.drop 1 }
    else .error (.name_err tag none ("tag".data))

/-- The `_apply_auto_foreground` function of `markup.py`: fires when the
(possibly invert-swapped) foreground is unset and background set; returns
whether it fired together with the updated style map. -/
def apply_auto_foreground (ext : Ext) (st : StyleMap) : Bool × StyleMap :=
  let foreground := st.foreground
  let background := st.background
  let invert := st.invert
  let (foreground, background) :=
    if invert then (background, foreground) else (foreground, background)
  match foreground, background with
  | none, some bgc =>
    let new := (bgc.contrast ext.lum_gt).as_background invert
    (true, if invert then { st with background := some new }
           else { st with foreground := some new })
  | _, _ => (false, st)

/-! ## The `RE_MARKUP` tokenizer -/

/-- The `RE_MARKUP.finditer` loop (`(?:\[([^\[\]]+)\])?([^\]\[]+)?`):
yields (tag-group, plain-run) pairs.  An empty match (neither part
matches) advances one character; every caller skips the `(None, None)`
pair, so the empty match is simply dropped here.  `fuel` bounds the
recursion (each step consumes at least one character). -/
def tokenize (fuel : Nat) (cs : CStr) : List (Option CStr × Option CStr) :=
  match fuel with
  | 0 => []
  | fuel + 1 =>
    match cs with
    | [] => []
    | _ =>
      let (tags, rest) :=
        match cs with
        | '[' :: inner =>
          let content := inner.takeWhile (fun c => c ≠ '[' ∧ c ≠ ']')
          let after := inner.drop content.length
          if content ≠ [] ∧ after.head? = some ']' then (some content, after.drop 1)
          else (none, cs)
        | _ => (none, cs)
      let plain := rest.takeWhile (fun c => c ≠ '[' ∧ c ≠ ']')
      let rest' := rest.drop plain.length
      match tags, plain with
      | none, [] => tokenize fuel (cs.drop 1)
      | t, p => (t, if p = [] then none else some p) :: tokenize fuel rest'

/-! ## Embedding of `zml_get_spans` -/

/-- The tag loop of `zml_get_spans`: a `/` tag appends the `FULL_RESET`
sentinel (and `_apply_tag` still runs on it, resetting the style map). -/
def apply_tags (ext : Ext) : List CStr → StyleMap → List SpanItem →
    Except ZmlErr (StyleMap × List SpanItem)
  | [], st, spans => .ok (st, spans)
  | tag :: rest, st, spans => do
    let spans := if tag = "/".data then spans ++ [.full_reset] else spans
    let st' ← apply_tag ext tag st
    apply_tags ext rest st' spans

/-- The group loop of `zml_get_spans` over the tokenizer output. -/
def zml_get_spans_aux (ext : Ext) :
    List (Option CStr × Option CStr) → StyleMap → Except ZmlErr (List SpanItem)
  | [], _ => .ok []
  | (tags, plain) :: rest, st =>
    match tags, plain with
    | none, none => zml_get_spans_aux ext rest st
    | tags, plain => do
      let (st, pre) ← apply_tags ext (split_ws (tags.getD [])) st []
      let plain := plain.getD []
      if plain = [] then
        let spans ← zml_get_spans_aux ext rest st
        .ok (pre ++ spans)
      else
        let (auto_fg, st') := apply_auto_foreground ext st
        let sp := SpanItem.span (span_of_styles plain st')
        -- `if auto_fg: styles["foreground"] = None`
        let st'' := if auto_fg then { st' with foreground := none } else st'
        let spans ← zml_get_spans_aux ext rest st''
        .ok (pre ++ [sp] ++ spans)

/-- The `zml_get_spans` function of `markup.py`. -/
def zml_get_spans (ext : Ext) (text : CStr) : Except ZmlErr (List SpanItem) :=
  zml_get_spans_aux ext (tokenize (text.length + 1) text) get_style_map

/-! ## Embedding of `zml_pre_process` -/

/-- The `MacroType` callable: text plus positional string arguments to
transformed text.  (Python raises `TypeError` on an arity mismatch; the
embedding's callables are total, and no claim exercises arity errors.) -/
abbrev MacroType : Type := CStr → List CStr → CStr

/-- The `MarkupContext` TypedDict: the alias and callable registries. -/
structure MarkupContext where
  aliases : List (CStr × CStr)
  macros : List (CStr × MacroType)

/-- An empty context (`zml_context()`). -/
def zml_context : MarkupContext := ⟨[], []⟩

/-- The `_apply_prefix` function of `markup.py`: inserts the configured
namespace string behind a leading `@` or `!` marker. -/
def apply_pfx (tag pfx : CStr) : CStr :=
  match tag with
  | '@' :: rest => '@' :: (pfx ++ rest)
  | '!' :: rest => '!' :: (pfx ++ rest)
  | _ => pfx ++ tag

/-- The `_parse_macro` function of `markup.py`: splits `name(a,b)` into the
name and the comma-separated argument list (the final character is assumed
to be the closing parenthesis, as in the source). -/
def parse_mcr_tag (tag : CStr) : CStr × List CStr :=
  match tag.findIdx? (fun c => c = '(') with
  | none => (tag, [])
  | some i => (tag.take i, split_on ',' ((tag.drop (i + 1)).dropLast))

/-- The alias substitution applied to one tag in the first pass of
`zml_pre_process`: the prefixed key is looked up and, when it is not
registered, the tag is left as it was (no second lookup happens). -/
def resolve_alias (ctx : MarkupContext) (pfx tag : CStr) : CStr :=
  let prefixed := apply_pfx tag pfx
  match assoc_get ctx.aliases prefixed with
  | some v => v
  | none => tag

/-- The first pre-processing pass on one tag group: `*`-shorthand
expansion and alias substitution, rebuilding the bracket group. -/
def pass1_group (ctx : MarkupContext) (pfx : CStr) (tags : List CStr) : CStr :=
  let body :=
    tags.foldl
      (fun acc tag =>
        if tag.contains '*' then
          acc ++ "!alpha(".data ++ List.intercalate [','] (split_on '*' tag) ++ ") ".data
        else
          acc ++ resolve_alias ctx pfx tag ++ [' '])
      ['[']
  rstrip_spaces body ++ [']']

/-- The alias-substitution pass of `zml_pre_process` over the tokenizer
output. -/
def pre_pass1 (ctx : MarkupContext) (pfx : CStr) :
    List (Option CStr × Option CStr) → CStr
  | [] => []
  | (tags, plain) :: rest =>
    match tags, plain with
    | none, none => pre_pass1 ctx pfx rest
    | tags, plain =>
      (match tags with
       | some ts => pass1_group ctx pfx (split_ws ts)
       | none => []) ++ plain.getD [] ++ pre_pass1 ctx pfx rest

/-- The active-macro table of the second pass: names mapped to the
callable plus its arguments, in activation order (a re-activation updates
in place, as a Python dict does). -/
abbrev MacroMap : Type := List (CStr × (MacroType × List CStr))

/-- Python dict assignment on the active-macro table: updates in place if
the key exists, appends otherwise. -/
def map_set (m : MacroMap) (k : CStr) (v : MacroType × List CStr) : MacroMap :=
  if m.any (fun p => p.1 = k) then
    m.map (fun p => if p.1 = k then (k, v) else p)
  else m ++ [(k, v)]

/-- Python `del` on the active-macro table. -/
def map_del (m : MacroMap) (k : CStr) : MacroMap :=
  m.filter (fun p => p.1 ≠ k)

/-- Membership in the active-macro table. -/
def map_has (m : MacroMap) (k : CStr) : Bool :=
  m.any (fun p => p.1 = k)

/-- The tag loop of `zml_pre_process`'s second pass: `/` clears the active
set (and stays in the tag list), non-macro tags stay, `/!name` removes an
active entry or fails with `ZmlSemanticsError`, and `!name(...)` looks up
the (prefixed) callable — failing with `ZmlNameError` when unregistered —
and activates it.  Returns the new active set and the kept tags. -/
def process_tags (ctx : MarkupContext) (pfx : CStr) :
    List CStr → MacroMap → Except ZmlErr (MacroMap × List CStr)
  | [], m => .ok (m, [])
  | tag :: rest, m =>
    if tag = "/".data then do
      -- `macros.clear(); continue`
      let (m', kept) ← process_tags ctx pfx rest []
      .ok (m', tag :: kept)
    else if ¬ (List.isPrefixOf ['!'] tag ∨ List.isPrefixOf "/!".data tag) then do
      let (m', kept) ← process_tags ctx pfx rest m
      .ok (m', tag :: kept)
    else if List.isPrefixOf "/!".data tag then
      let name := tag.drop 1
      if map_has m name then
        process_tags ctx pfx rest (map_del m name)
      else
        .error (.semantics_err name
          (some ("Cannot unset a macro when that isn't set.".data)) ("macro".data))
    else
      let name := (parse_mcr_tag tag).1
      let args := (parse_mcr_tag tag).2
      let prefixed := apply_pfx name pfx
      match assoc_get ctx.macros prefixed with
      | none => .error (.name_err prefixed none ("macro".data))
      | some f => process_tags ctx pfx rest (map_set m name (f, args))

/-- The group loop of `zml_pre_process`'s second pass: rebuilds the kept
tags and pushes the plain text through every active callable in activation
order (the source applies them even to an empty plain part). -/
def pre_pass2 (ctx : MarkupContext) (pfx : CStr) :
    List (Option CStr × Option CStr) → MacroMap → Except ZmlErr CStr
  | [], _ => .ok []
  | (tags, plain) :: rest, m =>
    match tags, plain with
    | none, none => pre_pass2 ctx pfx rest m
    | tags, plain => do
      let (m', kept) ← process_tags ctx pfx (split_ws (tags.getD [])) m
      let bracket :=
        if kept.length > 0 then '[' :: List.intercalate [' '] kept ++ [']'] else []
      let plain' := m'.foldl (fun p entry => entry.2.1 p entry.2.2) (plain.getD [])
      let out ← pre_pass2 ctx pfx rest m'
      .ok (bracket ++ plain' ++ out)

/-- The `zml_pre_process` function of `markup.py`: alias substitution,
macro evaluation, and the final `"][" → " "` group merge. -/
def zml_pre_process (ctx : MarkupContext) (pfx text : CStr) : Except ZmlErr CStr :=
  let aliased := pre_pass1 ctx pfx (tokenize (text.length + 1) text)
  do
    let out ← pre_pass2 ctx pfx (tokenize (aliased.length + 1) aliased) []
    .ok (replace out ("][".data) (" ".data))

/-! ## The `zml` entry point -/

/-- The `zml` function of `markup.py` with its default escape
replacements (`\x7b` and `\x7d` are literal braces). -/
def zml (ext : Ext) (ctx : MarkupContext) (pfx markup : CStr) : Except ZmlErr CStr :=
  let r0 := "\x7b\x7b\x7b\x7b".data
  let r1 := "\x7d\x7d\x7d\x7d".data
  let markup := replace (replace markup ("\\[".data) r0) ("\\]".data) r1
  do
    let pre ← zml_pre_process ctx pfx markup
    let spans ← zml_get_spans ext pre
    .ok (replace (replace (combine_spans spans) r0 ("[".data)) r1 ("]".data))

/-! ## Embedding of `src/zenith/lru_cache.py`

The `LRUCache` wraps an `OrderedDict`, modelled as an association list
whose front is the oldest entry.  `__getitem__` raises `KeyError` on a
missing key before mutating anything, so its state effect on a miss is the
identity. -/

section LRUCache

variable {K V : Type} [DecidableEq K]

/-- `OrderedDict.move_to_end(key)`: sends the entry for `key` to the back,
keeping the relative order of the others. -/
def move_to_end (k : K) (l : List (K × V)) : List (K × V) :=
  l.filter (fun p => p.1 ≠ k) ++ l.filter (fun p => p.1 = k)

/-- The state effect of `LRUCache.__getitem__`: a hit moves the entry to
the back; a miss raises `KeyError` (leaving the contents unchanged). -/
def lru_get (k : K) (l : List (K × V)) : List (K × V) :=
  if l.any (fun p => p.1 = k) then move_to_end k l else l

/-- The state effect of `LRUCache.__setitem__`: assignment (an existing
entry keeps its position but `move_to_end` sends it to the back either
way, so assignment plus `move_to_end` is remove-then-append), then a
`popitem(last=False)` of the front entry when the capacity is exceeded. -/
def lru_set (cap : Nat) (k : K) (v : V) (l : List (K × V)) : List (K × V) :=
  let l' := l.filter (fun p => p.1 ≠ k) ++ [(k, v)]
  if cap < l'.length then l'.drop 1 else l'

/-- One cache operation. -/
inductive LruOp (K V : Type) where
  | get (k : K) : LruOp K V
  | set (k : K) (v : V) : LruOp K V

/-- The key an operation touches. -/
def op_key : LruOp K V → K
  | .get k => k
  | .set k _ => k

/-- One step of a cache session. -/
def lru_step (cap : Nat) (l : List (K × V)) : LruOp K V → List (K × V)
  | .get k => lru_get k l
  | .set k v => lru_set cap k v l

/-- Running a sequence of operations on an initially empty cache. -/
def lru_run (cap : Nat) (ops : List (LruOp K V)) : List (K × V) :=
  ops.foldl (lru_step cap) []

/-- The cache contents after the first `n` operations. -/
def state_at (cap : Nat) (ops : List (LruOp K V)) (n : Nat) : List (K × V) :=
  lru_run cap (ops.take n)

/-- Whether operation `j` of the session touches key `k` (both lookup and
insertion count as touches). -/
def touch_at (ops : List (LruOp K V)) (j : Nat) (k : K) : Bool :=
  match ops[j]? with
  | some op => decide (op_key op = k)
  | none => false

/-- The index of the most recent operation before step `n` that touched
`k` (`0` when there is none): the session-level notion of "least recently
used". -/
def last_touch (ops : List (LruOp K V)) (n : Nat) (k : K) : Nat :=
  (((List.range n).filter (fun j => touch_at ops j k)).foldl max 0)

end LRUCache

/-! ## Auxiliary definitions used by the verification -/

/-- The index-and-background part of `Color.from_ansi`'s non-24-bit path,
factored out so that round-trip facts can be decided independently of the
(unknown) color table. -/
def from_ansi_index (ansi : CStr) : Option (Nat × Bool) :=
  let parts := split_on ';' ansi
  if 3 < parts.length then none
  else
    let last := (parts.getLast?).getD []
    if py_isdigit last then
      let index := parse_nat last
      let (index, is_background) :=
        if parts.length = 1 then Color.convert_index index else (index, false)
      if index < 256 then some (index, is_background) else none
    else none

deriving instance DecidableEq for Except

/-- A placeholder for the float-formatting oracle (the code paths the
claims exercise never call it). -/
def dummy_frepr : Nat → CStr := fun _ => []

/-- A concrete external-behavior record for closed witness statements. -/
def ext_true : Ext := ⟨fun _ => true, dummy_frepr⟩

/-- A concrete stand-in color table for closed witness statements. -/
def diag_table : Nat → Nat × Nat × Nat := fun j => (j, j, j)

/-- The decidable core of the C4 round trip: `str(i)` through
`parse_color` is a numeral tag, the produced code has at most three parts,
and `from_ansi_index` recovers the index `i`. -/
def c4_core (i : Nat) (b : Bool) : Bool :=
  py_isdigit (lstrip '@' (nat_chars i)) &&
  (match parse_color dummy_frepr (nat_chars i) b with
   | .ok s =>
     decide ((split_on ';' s).length ≤ 3)
       && ((from_ansi_index s).map Prod.fst == some i)
   | .error _ => false)

/-!
# Theorems

One theorem per claim (plus counterexamples, witnesses, and shared helper
lemmas).
-/

/-! ### C5 — `Color.from_ansi` on 24-bit bodies (code bug: parts stay strings) -/

/-- C5: for a body with more than 3 `;`-separated parts, `Color.from_ansi`
infers the background flag from a leading `4`, but it stores the raw
`;`-separated string parts in the `rgb` field — not the integer triple the
claim (and the dataclass's own `tuple[int, int, int]` annotation)
promises.  Evaluated at the failing inputs `"38;2;255;0;0"` and
`"48;2;1;2;3"`. -/
theorem c5_from_ansi_rgb_parts_stay_strings :
    Color.from_ansi diag_table ("38;2;255;0;0".data)
      = some ⟨.strs ["255".data, "0".data, "0".data], false⟩
    ∧ Color.from_ansi diag_table ("48;2;1;2;3".data)
      = some ⟨.strs ["1".data, "2".data, "3".data], true⟩
    ∧ RgbVal.strs ["255".data, "0".data, "0".data] ≠ RgbVal.ints 255 0 0 := by
  refine ⟨by decide, by decide, by decide⟩

/-! ### C2 — `FULL_RESET` in `combine_spans` (corrected: the hyperlink is
reset too) -/

/-- C2 counterexample: the tracked hyperlink is `"u"` after a hyperlinked
span, but processing the `FULL_RESET` sentinel clears it to `""` — the
hyperlink value is *not* preserved across the reset, contrary to the
claim. -/
theorem c2_counterexample :
    (combine_run get_style_map
      [SpanItem.span { text := ['a'], hyperlink := ['u'] }]).2.hyperlink = ['u']
    ∧ (combine_run get_style_map
      [SpanItem.span { text := ['a'], hyperlink := ['u'] },
       SpanItem.full_reset]).2.hyperlink = []
    ∧ ([] : CStr) ≠ ['u'] := by
  refine ⟨by decide, by decide, by decide⟩

/-- C2 (amended): when `combine_spans` processes the `FULL_RESET` sentinel
it appends exactly `"\x1b[0m"` to the output and resets *every* tracked
style attribute — including the hyperlink — to its default: the run on
`l1 ++ FULL_RESET :: l2` is the run on `l1`, then the reset sequence, then
the run on `l2` restarted from the default style map. -/
theorem c2_full_reset_resets_all_state (st : StyleMap) (l1 l2 : List SpanItem) :
    combine_run st (l1 ++ SpanItem.full_reset :: l2) =
      ((combine_run st l1).1 ++ (esc ++ "[0m".data)
         ++ (combine_run get_style_map l2).1,
       (combine_run get_style_map l2).2) := by
  induction l1 generalizing st with
  | nil => simp [combine_run]
  | cons hd tl ih =>
    cases hd with
    | full_reset => simp [combine_run, ih]
    | span d => simp [combine_run, ih]

/-! ### C8 — `Color.contrast` dichotomy -/

/-- C8: `Color.contrast` always returns one of exactly the two sentinel
values — off-black `(35, 35, 35)` exactly when the luminance exceeds
0.179, off-white `(245, 245, 245)` otherwise — and it preserves the
original's background flag. -/
theorem c8_contrast_dichotomy (c : Color) :
    (c.contrast = ⟨.ints 35 35 35, c.is_background⟩
      ∨ c.contrast = ⟨.ints 245 245 245, c.is_background⟩)
    ∧ (c.contrast = ⟨.ints 35 35 35, c.is_background⟩ ↔ c.luminance > 0.179)
    ∧ (c.contrast = ⟨.ints 245 245 245, c.is_background⟩ ↔ ¬ c.luminance > 0.179)
    ∧ c.contrast.is_background = c.is_background := by
  unfold Color.contrast
  by_cases h : c.luminance > 0.179
  · simp [h]
  · simp [h]

/-! ### C4 — `parse_color` / `Color.from_ansi` index round trip -/

/-- On numeral color tags `parse_color` never consults the float-formatting
oracle, so its result does not depend on it. -/
theorem parse_color_frepr_irrel (f1 f2 : Nat → CStr) (color : CStr) (b : Bool)
    (h : py_isdigit (lstrip '@' color) = true) :
    parse_color f1 color b = parse_color f2 color b := by
  simp only [parse_color, h, if_true]

/-- On bodies of at most three parts, `Color.from_ansi` is the table image
of `from_ansi_index`. -/
theorem from_ansi_eq_index (table : Nat → Nat × Nat × Nat) (ansi : CStr)
    (h : (split_on ';' ansi).length ≤ 3) :
    Color.from_ansi table ansi = (from_ansi_index ansi).map
      (fun p => ⟨.ints (table p.1).1 (table p.1).2.1 (table p.1).2.2, p.2⟩) := by
  have h3 : ¬ 3 < (split_on ';' ansi).length := by omega
  unfold Color.from_ansi from_ansi_index
  simp only [h3, if_false]
  by_cases hd : py_isdigit (((split_on ';' ansi).getLast?).getD []) = true
  · simp only [hd, if_true]
    rcases hp : (if (split_on ';' ansi).length = 1 then
        Color.convert_index (parse_nat (((split_on ';' ansi).getLast?).getD []))
      else (parse_nat (((split_on ';' ansi).getLast?).getD []), false)) with ⟨i', bg⟩
    by_cases hlt : i' < 256
    · simp [hp, hlt]
    · simp [hp, hlt]
  · simp only [Bool.not_eq_true] at hd
    simp [hd]

set_option maxRecDepth 100000 in
/-- The C4 core holds for every index below 256 and both background
flags. -/
theorem c4_core_holds (i : Nat) (hi : i < 256) :
    (c4_core i true && c4_core i false) = true := by
  revert i
  decide

/-- C4: for every index `0 ≤ i < 256` and either background flag,
constructing the SGR code with `parse_color(str(i), b)` and feeding it
back through `Color.from_ansi` recovers the color at index `i` of the
color table, across all three encoding ranges (0-7 standard, 8-15 bright,
16-255 indexed). -/
theorem c4_parse_color_round_trip (frepr : Nat → CStr)
    (table : Nat → Nat × Nat × Nat) (i : Nat) (hi : i < 256) (b : Bool) :
    ((parse_color frepr (nat_chars i) b).toOption.bind
        (Color.from_ansi table)).map Color.rgb
      = some (.ints (table i).1 (table i).2.1 (table i).2.2) := by
  have hb : c4_core i b = true := by
    have hc := c4_core_holds i hi
    cases b
    · exact (Bool.and_eq_true_iff.mp hc).2
    · exact (Bool.and_eq_true_iff.mp hc).1
  unfold c4_core at hb
  cases hp : parse_color dummy_frepr (nat_chars i) b with
  | error e => rw [hp] at hb; simp at hb
  | ok s =>
    rw [hp] at hb
    simp only [Bool.and_eq_true, decide_eq_true_eq, beq_iff_eq] at hb
    obtain ⟨hdig, hlen, hidx⟩ := hb
    have hirr := parse_color_frepr_irrel frepr dummy_frepr (nat_chars i) b hdig
    rw [hirr, hp]
    simp only [Except.toOption, Option.some_bind]
    rw [from_ansi_eq_index table s hlen]
    cases haux : from_ansi_index s with
    | none => rw [haux] at hidx; simp at hidx
    | some p =>
      rw [haux] at hidx
      have hp1 : p.1 = i := by simpa using hidx
      simp [haux, hp1]

/-- C4 witness: the round trip at index 200, background flag set, with a
concrete table. -/
theorem c4_witness :
    ((parse_color dummy_frepr (nat_chars 200) true).toOption.bind
        (Color.from_ansi diag_table)).map Color.rgb
      = some (.ints 200 200 200) :=
  c4_parse_color_round_trip dummy_frepr diag_table 200 (by decide) true

/-! ### C1 — the end-to-end example (corrected: no trailing reset) -/

/-- C1 counterexample: on `"[bold underline 61]Hello [141 /bold]There"`
(default context, empty prefix) `zml` does *not* return the claimed byte
string ending in a trailing full reset `"\x1b[0m"` — the code emits no
trailing reset (the repository's own tests expect none for analogous
inputs, and `zprint` compensates by printing `end="\x1b[0m\n"`). -/
theorem c1_counterexample :
    zml ext_true zml_context [] ("[bold underline 61]Hello [141 /bold]There".data)
      ≠ .ok ("\x1b[38;5;61;1;4mHello \x1b[22m\x1b[38;5;141mThere\x1b[0m".data) := by
  decide

/-- C1 (amended): on `"[bold underline 61]Hello [141 /bold]There"`
(default context, empty prefix) `zml` returns exactly
`"\x1b[38;5;61;1;4mHello \x1b[22m\x1b[38;5;141mThere"`: one escape prefix
setting color 61, bold and underline before `"Hello "`, a batched
unsetter `CSI 22 m` plus the new color 141 before `"There"`, and *no*
trailing reset.  The result holds for every external-behavior record (the
input exercises neither the luminance comparison nor float formatting). -/
theorem c1_zml_example (ext : Ext) :
    zml ext zml_context [] ("[bold underline 61]Hello [141 /bold]There".data)
      = .ok ("\x1b[38;5;61;1;4mHello \x1b[22m\x1b[38;5;141mThere".data) := rfl

/-! ### C3 — auto-foreground derivation leaks under `invert` (code bug) -/

/-- C3: on `"[invert 255;255;0]A[bold]B"`, automatic foreground derivation
fires for the first span (invert active, foreground yellow, background
unset), storing the derived contrast color in the *background*; but the
post-emission cleanup unconditionally clears the *foreground*.  The
derived color therefore leaks into the second span (and the user's yellow
foreground is lost), contradicting the claim that the auto-derived color
is applied only to the one span when `invert` is active.  The hypothesis
pins the external luminance comparison at yellow (whose true luminance
0.9278 exceeds 0.179, see `yellow_luminance_gt`). -/
theorem c3_auto_foreground_leak (ext : Ext)
    (hl : ext.lum_gt ⟨.rgb 255 255 0, false⟩ = true) :
    zml_get_spans ext ("[invert 255;255;0]A[bold]B".data) = .ok
      [.span { text := "A".data, invert := true,
               foreground := some ⟨.rgb 255 255 0, false⟩,
               background := some ⟨.rgb 35 35 35, true⟩ },
       .span { text := "B".data, bold := true, invert := true,
               foreground := none,
               background := some ⟨.rgb 35 35 35, true⟩ }] := by
  have hc : SlateColor.contrast ext.lum_gt ⟨.rgb 255 255 0, false⟩
      = ⟨.rgb 35 35 35, false⟩ := by
    simp [SlateColor.contrast, hl]
  have h1 : zml_get_spans ext ("[invert 255;255;0]A[bold]B".data) = .ok
      [.span { text := "A".data, invert := true,
               foreground := some ⟨.rgb 255 255 0, false⟩,
               background := some
                 ⟨(SlateColor.contrast ext.lum_gt ⟨.rgb 255 255 0, false⟩).form, true⟩ },
       .span { text := "B".data, bold := true, invert := true,
               foreground := none,
               background := some
                 ⟨(SlateColor.contrast ext.lum_gt ⟨.rgb 255 255 0, false⟩).form, true⟩ }] := rfl
  rw [h1, hc]

/-- C3 witness: the leak evaluated at a concrete oracle. -/
theorem c3_witness :
    zml_get_spans ext_true ("[invert 255;255;0]A[bold]B".data) = .ok
      [.span { text := "A".data, invert := true,
               foreground := some ⟨.rgb 255 255 0, false⟩,
               background := some ⟨.rgb 35 35 35, true⟩ },
       .span { text := "B".data, bold := true, invert := true,
               foreground := none,
               background := some ⟨.rgb 35 35 35, true⟩ }] :=
  c3_auto_foreground_leak ext_true rfl

/-- The true (real-valued) luminance of yellow `(255, 255, 0)` exceeds the
0.179 contrast threshold, so a faithful luminance oracle satisfies the
hypothesis of the C3 theorem. -/
theorem yellow_luminance_gt :
    Color.luminance ⟨.ints 255 255 0, false⟩ > 0.179 := by
  unfold Color.luminance Color.srgb_linearize Color.rgb_nat
  norm_num

/-! ### C6 — prefixed lookups have no unprefixed fallback (corrected) -/

/-- C6 counterexample: with prefix `"pre"`, the alias `test → bold` (and a
registered callable `!m`) do *not* resolve through their unprefixed names:
the alias tag passes through unresolved (while it resolves fine with an
empty prefix), and the `!m` reference fails with `ZmlNameError` on the
prefixed key `!prem` instead of falling back. -/
theorem c6_counterexample :
    zml_pre_process ⟨[("test".data, "bold".data)], []⟩ ("pre".data) ("[test]x".data)
      = .ok ("[test]x".data)
    ∧ zml_pre_process ⟨[("test".data, "bold".data)], []⟩ [] ("[test]x".data)
      = .ok ("[bold]x".data)
    ∧ zml_pre_process ⟨[], [("!m".data, fun t _ => t)]⟩ ("pre".data) ("[!m]x".data)
      = .error (.name_err ("!prem".data) none ("macro".data)) := by
  refine ⟨by decide, by decide, by decide⟩

/-- C6 (amended): alias and macro lookups during pre-processing consult
*only* the prefixed key `prefix + name` (with a leading `@`/`!` marker
kept in front).  When the prefixed key is not registered there is no
fallback to the unprefixed name: an alias tag is left unchanged (whether
or not its unprefixed name is registered), and a macro reference fails
with `ZmlNameError` naming the prefixed key (whether or not the
unprefixed name is registered). -/
theorem c6_prefixed_lookup_only (ctx : MarkupContext) (pfx tag t : CStr)
    (rest : List CStr) (m : MacroMap)
    (h1 : assoc_get ctx.aliases (apply_pfx tag pfx) = none)
    (h2 : assoc_get ctx.macros (apply_pfx (parse_mcr_tag ('!' :: t)).1 pfx) = none) :
    resolve_alias ctx pfx tag = tag
    ∧ process_tags ctx pfx (('!' :: t) :: rest) m
        = .error (.name_err (apply_pfx (parse_mcr_tag ('!' :: t)).1 pfx)
            none ("macro".data)) := by
  constructor
  · simp [resolve_alias, h1]
  · have hslash : ¬ (('!' :: t) = "/".data) := by
      intro hcontra
      have : '!' = '/' := by
        have hd : "/".data = ['/'] := rfl
        rw [hd] at hcontra
        exact (List.cons.injEq _ _ _ _ ▸ hcontra).1
      simp at this
    have hpre1 : List.isPrefixOf ['!'] ('!' :: t) = true := by
      simp [List.isPrefixOf]
    have hpre2 : List.isPrefixOf ("/!".data) ('!' :: t) = false := by
      have hd : "/!".data = ['/', '!'] := rfl
      rw [hd]
      simp [List.isPrefixOf]
    simp only [process_tags, hslash, if_false, hpre1, hpre2]
    simp [h2]

/-- C6 witness: the amended theorem at a concrete context, prefix and
tags. -/
theorem c6_witness :
    resolve_alias ⟨[("a".data, "b".data)], []⟩ ("p".data) ("a".data) = "a".data
    ∧ process_tags ⟨[("a".data, "b".data)], []⟩ ("p".data) [('!' :: "m".data)] []
        = .error (.name_err (apply_pfx (parse_mcr_tag ('!' :: "m".data)).1 ("p".data))
            none ("macro".data)) :=
  c6_prefixed_lookup_only ⟨[("a".data, "b".data)], []⟩ ("p".data) ("a".data)
    ("m".data) [] [] (by decide) rfl

/-! ### C7 — unsetting an inactive macro is a semantics error -/

/-- C7: parsing `"Test[/!not-set]"` fails with `ZmlSemanticsError` and
produces no output — whether or not a callable of that name is registered
in the context (activation, not registration, is what counts); and in
general, processing the unset tag `/!name` removes the matching active
entry when one exists and fails with `ZmlSemanticsError` when it does
not. -/
theorem c7_unset_inactive_mcr :
    (zml_pre_process zml_context [] ("Test[/!not-set]".data)
      = .error (.semantics_err ("!not-set".data)
          (some ("Cannot unset a macro when that isn't set.".data)) ("macro".data)))
    ∧ (zml_pre_process ⟨[], [("!not-set".data, fun tx _ => tx)]⟩ [] ("Test[/!not-set]".data)
      = .error (.semantics_err ("!not-set".data)
          (some ("Cannot unset a macro when that isn't set.".data)) ("macro".data)))
    ∧ (∀ (ctx : MarkupContext) (pfx t : CStr) (rest : List CStr) (m : MacroMap),
        (map_has m ('!' :: t) = true →
          process_tags ctx pfx (('/' :: '!' :: t) :: rest) m
            = process_tags ctx pfx rest (map_del m ('!' :: t)))
        ∧ (map_has m ('!' :: t) = false →
          process_tags ctx pfx (('/' :: '!' :: t) :: rest) m
            = .error (.semantics_err ('!' :: t)
                (some ("Cannot unset a macro when that isn't set.".data)) ("macro".data)))) := by
  refine ⟨by decide, by decide, ?_⟩
  intro ctx pfx t rest m
  have hslash : ¬ (('/' :: '!' :: t) = "/".data) := by
    intro hcontra
    have hd : "/".data = ['/'] := rfl
    rw [hd] at hcontra
    exact absurd (List.cons.injEq _ _ _ _ ▸ hcontra).2 (by simp)
  have hpre2 : List.isPrefixOf ("/!".data) ('/' :: '!' :: t) = true := by
    have hd : "/!".data = ['/', '!'] := rfl
    rw [hd]
    simp [List.isPrefixOf]
  constructor
  · intro hhas
    simp only [process_tags, hslash, if_false, hpre2]
    simp [hhas]
  · intro hhas
    simp only [process_tags, hslash, if_false, hpre2]
    simp [hhas]

/-- C7 witness: unsetting an active entry removes it; the inactive case is
covered by the closed first conjunct. -/
theorem c7_witness :
    process_tags zml_context [] [('/' :: '!' :: "m".data)]
        [("!m".data, (fun tx _ => tx, []))]
      = process_tags zml_context [] []
          (map_del [(("!m".data : CStr), ((fun tx _ => tx : MacroType), ([] : List CStr)))] ('!' :: "m".data)) :=
  (c7_unset_inactive_mcr.2.2 zml_context [] ("m".data) []
    [("!m".data, (fun tx _ => tx, []))]).1 (by decide)

/-! ### C9 — the LRU cache: size bound and strict LRU eviction -/

section LRUCacheProofs

variable {K V : Type} [DecidableEq K]

/-- Folding `max` stays below any common upper bound. -/
theorem foldl_max_le {l : List Nat} {b c : Nat} (hb : b ≤ c)
    (h : ∀ a ∈ l, a ≤ c) : l.foldl max b ≤ c := by
  induction l generalizing b with
  | nil => exact hb
  | cons x t ih =>
    exact ih (max_le hb (h x (by simp))) (fun a ha => h a (by simp [ha]))

/-- The base is below the `max` fold. -/
theorem base_le_foldl_max {l : List Nat} {b : Nat} : b ≤ l.foldl max b := by
  induction l generalizing b with
  | nil => exact le_refl _
  | cons x t ih => exact le_trans (le_max_left _ _) ih

/-- Every member is below the `max` fold. -/
theorem le_foldl_max {l : List Nat} {b : Nat} {a : Nat} (ha : a ∈ l) :
    a ≤ l.foldl max b := by
  induction l generalizing b with
  | nil => cases ha
  | cons x t ih =>
    rcases List.mem_cons.mp ha with rfl | ha'
    · exact le_trans (le_max_right b a) base_le_foldl_max
    · exact ih ha'

/-- Operations beyond the end of the session touch nothing. -/
theorem touch_at_of_none {ops : List (LruOp K V)} {n : Nat} {k : K}
    (h : ops[n]? = none) : touch_at ops n k = false := by
  simp [touch_at, h]

/-- Unfolding `last_touch` one step: the most recent touch before `n + 1`
is `n` itself when operation `n` touches the key, and the most recent
touch before `n` otherwise. -/
theorem last_touch_succ (ops : List (LruOp K V)) (n : Nat) (k : K) :
    last_touch ops (n + 1) k
      = if touch_at ops n k then n else last_touch ops n k := by
  unfold last_touch
  rw [List.range_succ, List.filter_append]
  by_cases h : touch_at ops n k
  · rw [if_pos h]
    have hfil : List.filter (fun j => touch_at ops j k) [n] = [n] := by
      simp [List.filter, h]
    rw [hfil, List.foldl_append]
    have hle : (List.filter (fun j => touch_at ops j k) (List.range n)).foldl max 0 ≤ n := by
      refine foldl_max_le (Nat.zero_le _) (fun a ha => ?_)
      have := List.mem_range.mp (List.mem_of_mem_filter ha)
      omega
    simp only [List.foldl_cons, List.foldl_nil]
    omega
  · rw [if_neg h]
    have hfil : List.filter (fun j => touch_at ops j k) [n] = [] := by
      simp only [Bool.not_eq_true] at h
      simp [List.filter, h]
    rw [hfil, List.append_nil]

/-- An untouched key keeps its `last_touch` across a step. -/
theorem last_touch_succ_untouched {ops : List (LruOp K V)} {n : Nat} {x : K}
    (h : touch_at ops n x = false) :
    last_touch ops (n + 1) x = last_touch ops n x := by
  rw [last_touch_succ, if_neg (by simp [h])]

/-- A touched key's `last_touch` becomes the step index. -/
theorem last_touch_succ_touched {ops : List (LruOp K V)} {n : Nat} {x : K}
    (h : touch_at ops n x = true) :
    last_touch ops (n + 1) x = n := by
  rw [last_touch_succ, if_pos h]

/-- The operation at index `n` touches exactly its own key. -/
theorem touch_at_some {ops : List (LruOp K V)} {n : Nat} {op : LruOp K V}
    (h : ops[n]? = some op) (x : K) :
    touch_at ops n x = decide (op_key op = x) := by
  simp [touch_at, h]

/-- The state before any operation is the empty cache. -/
theorem state_at_zero (cap : Nat) (ops : List (LruOp K V)) :
    state_at cap ops 0 = [] := rfl

/-- Unfolding `state_at` one step inside the session. -/
theorem state_at_succ_some {cap n : Nat} {ops : List (LruOp K V)} {op : LruOp K V}
    (h : ops[n]? = some op) :
    state_at cap ops (n + 1) = lru_step cap (state_at cap ops n) op := by
  unfold state_at lru_run
  rw [List.take_succ, h, List.foldl_append]
  rfl

/-- Unfolding `state_at` one step beyond the session's end. -/
theorem state_at_succ_none {cap n : Nat} {ops : List (LruOp K V)}
    (h : ops[n]? = none) :
    state_at cap ops (n + 1) = state_at cap ops n := by
  unfold state_at lru_run
  rw [List.take_succ, h]
  simp

/-- `move_to_end` permutes the entries. -/
theorem move_to_end_perm (k : K) (l : List (K × V)) :
    (move_to_end k l).Perm l := by
  unfold move_to_end
  have h1 : l.filter (fun p => p.1 ≠ k) = l.filter (fun p => !(decide (p.1 = k))) :=
    List.filter_congr (fun a _ => by simp [decide_not])
  rw [h1]
  exact (List.perm_append_comm).trans (List.filter_append_perm _ l)

/-- `lru_get` permutes the entries (a hit reorders, a miss is the
identity). -/
theorem lru_get_perm (k : K) (l : List (K × V)) :
    (lru_get k l).Perm l := by
  unfold lru_get
  by_cases h : l.any (fun p => p.1 = k) = true
  · rw [if_pos h]; exact move_to_end_perm k l
  · rw [if_neg h]

/-- Pairwise facts hold trivially on a filter keeping a single key when
the key list has no duplicates. -/
theorem pairwise_filter_key {l : List (K × V)}
    (hnd : (l.map Prod.fst).Nodup) (k : K) (R : K × V → K × V → Prop) :
    (l.filter (fun p => p.1 = k)).Pairwise R := by
  cases hB : l.filter (fun p => p.1 = k) with
  | nil => exact List.Pairwise.nil
  | cons a t =>
    cases t with
    | nil => exact List.pairwise_singleton R a
    | cons b t' =>
      exfalso
      have hsub : (a :: b :: t').Sublist l := hB ▸ List.filter_sublist l
      have hnd' : ((a :: b :: t').map Prod.fst).Nodup :=
        List.Nodup.sublist (hsub.map Prod.fst) hnd
      have hamem : a ∈ l.filter (fun p => p.1 = k) := by
        rw [hB]; exact List.mem_cons_self a _
      have hbmem : b ∈ l.filter (fun p => p.1 = k) := by
        rw [hB]; exact List.mem_cons_of_mem a (List.mem_cons_self b _)
      have ha : a.1 = k := by simpa using (List.mem_filter.mp hamem).2
      have hb : b.1 = k := by simpa using (List.mem_filter.mp hbmem).2
      rw [List.map_cons, List.map_cons, List.nodup_cons] at hnd'
      exact hnd'.1 (by rw [ha, ← hb]; exact List.mem_cons_self b.1 _)

/-- The invariant tied to `state_at`: the cache is bounded, its keys are
distinct, every entry was last touched inside the processed prefix, and
the entries are ordered front-to-back by strictly increasing last-touch
index (front = least recently used). -/
def CacheInv (cap : Nat) (ops : List (LruOp K V)) (n : Nat)
    (l : List (K × V)) : Prop :=
  l.length ≤ cap
  ∧ (l.map Prod.fst).Nodup
  ∧ (∀ e ∈ l, last_touch ops n e.1 < n)
  ∧ l.Pairwise (fun a b => last_touch ops n a.1 < last_touch ops n b.1)

/-- The invariant survives a `get` step. -/
theorem cache_inv_step_get {cap n : Nat} {ops : List (LruOp K V)} {k : K}
    {l : List (K × V)} (hop : ops[n]? = some (.get k))
    (hinv : CacheInv cap ops n l) :
    CacheInv cap ops (n + 1) (lru_get k l) := by
  obtain ⟨hlen, hnd, hlt, hpw⟩ := hinv
  have htouch : ∀ x : K, touch_at ops n x = decide (k = x) :=
    fun x => touch_at_some hop x
  have huntouched : ∀ x : K, ¬ (x = k) → last_touch ops (n + 1) x = last_touch ops n x := by
    intro x hx
    refine last_touch_succ_untouched ?_
    rw [htouch]
    simp only [decide_eq_false_iff_not]
    exact fun h => hx h.symm
  unfold lru_get
  by_cases hmem : l.any (fun p => p.1 = k) = true
  · rw [if_pos hmem]
    show CacheInv cap ops (n + 1)
      (l.filter (fun p => p.1 ≠ k) ++ l.filter (fun p => p.1 = k))
    have hperm : (l.filter (fun p => p.1 ≠ k) ++ l.filter (fun p => p.1 = k)).Perm l :=
      move_to_end_perm k l
    refine ⟨by rw [hperm.length_eq]; exact hlen,
      ((hperm.symm).map Prod.fst).nodup hnd, ?_, ?_⟩
    · intro e he
      rcases List.mem_append.mp he with heA | heB
      · have hkey : ¬ (e.1 = k) := by simpa using (List.mem_filter.mp heA).2
        rw [huntouched e.1 hkey]
        exact lt_trans (hlt e (List.mem_of_mem_filter heA)) (Nat.lt_succ_self n)
      · have hkey : e.1 = k := by simpa using (List.mem_filter.mp heB).2
        rw [last_touch_succ_touched (by rw [htouch]; simp [hkey])]
        exact Nat.lt_succ_self n
    · rw [List.pairwise_append]
      refine ⟨?_, ?_, ?_⟩
      · refine List.Pairwise.imp_of_mem ?_
          (List.Pairwise.sublist (List.filter_sublist l) hpw)
        intro a b ha hb hr
        have hka : ¬ (a.1 = k) := by simpa using (List.mem_filter.mp ha).2
        have hkb : ¬ (b.1 = k) := by simpa using (List.mem_filter.mp hb).2
        rw [huntouched a.1 hka, huntouched b.1 hkb]
        exact hr
      · exact pairwise_filter_key hnd k _
      · intro a ha b hb
        have hka : ¬ (a.1 = k) := by simpa using (List.mem_filter.mp ha).2
        have hkb : b.1 = k := by simpa using (List.mem_filter.mp hb).2
        rw [huntouched a.1 hka, last_touch_succ_touched (by rw [htouch]; simp [hkb])]
        exact hlt a (List.mem_of_mem_filter ha)
  · rw [if_neg hmem]
    have hknot : ∀ e ∈ l, ¬ (e.1 = k) := by
      intro e he heq
      exact hmem (List.any_eq_true.mpr ⟨e, he, by simp [heq]⟩)
    refine ⟨hlen, hnd, ?_, ?_⟩
    · intro e he
      rw [huntouched e.1 (hknot e he)]
      exact lt_trans (hlt e he) (Nat.lt_succ_self n)
    · refine List.Pairwise.imp_of_mem ?_ hpw
      intro a b ha hb hr
      rw [huntouched a.1 (hknot a ha), huntouched b.1 (hknot b hb)]
      exact hr

/-- The invariant survives a `set` step. -/
theorem cache_inv_step_set {cap n : Nat} {ops : List (LruOp K V)} {k : K} {v : V}
    {l : List (K × V)} (hop : ops[n]? = some (.set k v))
    (hinv : CacheInv cap ops n l) :
    CacheInv cap ops (n + 1) (lru_set cap k v l) := by
  obtain ⟨hlen, hnd, hlt, hpw⟩ := hinv
  have htouch : ∀ x : K, touch_at ops n x = decide (k = x) :=
    fun x => touch_at_some hop x
  have huntouched : ∀ x : K, ¬ (x = k) → last_touch ops (n + 1) x = last_touch ops n x := by
    intro x hx
    refine last_touch_succ_untouched ?_
    rw [htouch]
    simp only [decide_eq_false_iff_not]
    exact fun h => hx h.symm
  have hktouched : last_touch ops (n + 1) k = n :=
    last_touch_succ_touched (by rw [htouch]; simp)
  -- facts about the pre-eviction list
  have h2' : (((l.filter (fun p => p.1 ≠ k)) ++ [(k, v)]).map Prod.fst).Nodup := by
    rw [List.map_append]
    refine List.Nodup.append
      (List.Nodup.sublist ((List.filter_sublist l).map Prod.fst) hnd) (by simp) ?_
    intro x hxA hxB
    simp only [List.map_cons, List.map_nil, List.mem_singleton] at hxB
    rcases List.mem_map.mp hxA with ⟨e, heA, hex⟩
    have : ¬ (e.1 = k) := by simpa using (List.mem_filter.mp heA).2
    exact this (hex.trans hxB)
  have h3' : ∀ e ∈ (l.filter (fun p => p.1 ≠ k)) ++ [(k, v)],
      last_touch ops (n + 1) e.1 < n + 1 := by
    intro e he
    rcases List.mem_append.mp he with heA | heB
    · have hkey : ¬ (e.1 = k) := by simpa using (List.mem_filter.mp heA).2
      rw [huntouched e.1 hkey]
      exact lt_trans (hlt e (List.mem_of_mem_filter heA)) (Nat.lt_succ_self n)
    · have he' : e = (k, v) := by simpa using heB
      rw [he']
      simp [hktouched]
  have h4' : ((l.filter (fun p => p.1 ≠ k)) ++ [(k, v)]).Pairwise
      (fun a b => last_touch ops (n + 1) a.1 < last_touch ops (n + 1) b.1) := by
    rw [List.pairwise_append]
    refine ⟨?_, by simp, ?_⟩
    · refine List.Pairwise.imp_of_mem ?_
        (List.Pairwise.sublist (List.filter_sublist l) hpw)
      intro a b ha hb hr
      have hka : ¬ (a.1 = k) := by simpa using (List.mem_filter.mp ha).2
      have hkb : ¬ (b.1 = k) := by simpa using (List.mem_filter.mp hb).2
      rw [huntouched a.1 hka, huntouched b.1 hkb]
      exact hr
    · intro a ha b hb
      have hka : ¬ (a.1 = k) := by simpa using (List.mem_filter.mp ha).2
      have hb' : b = (k, v) := by simpa using hb
      rw [huntouched a.1 hka, hb', hktouched]
      exact hlt a (List.mem_of_mem_filter ha)
  unfold lru_set
  by_cases hover : cap < ((l.filter (fun p => p.1 ≠ k)) ++ [(k, v)]).length
  · rw [if_pos hover]
    refine ⟨?_, ?_, ?_, ?_⟩
    · rw [List.length_drop]
      have := List.length_filter_le (fun p => p.1 ≠ k) l
      simp only [List.length_append, List.length_cons, List.length_nil]
      omega
    · exact List.Nodup.sublist ((List.drop_sublist 1 _).map Prod.fst) h2'
    · intro e he
      exact h3' e ((List.drop_sublist 1 _).subset he)
    · exact List.Pairwise.sublist (List.drop_sublist 1 _) h4'
  · rw [if_neg hover]
    exact ⟨by omega, h2', h3', h4'⟩

/-- The invariant holds at every point of every session. -/
theorem cache_inv_holds (cap : Nat) (ops : List (LruOp K V)) :
    ∀ n, CacheInv cap ops n (state_at cap ops n) := by
  intro n
  induction n with
  | zero =>
    rw [state_at_zero]
    refine ⟨Nat.zero_le _, List.nodup_nil, ?_, List.Pairwise.nil⟩
    intro e he
    simp at he
  | succ n ih =>
    cases hop : ops[n]? with
    | none =>
      rw [state_at_succ_none hop]
      obtain ⟨h1, h2, h3, h4⟩ := ih
      have huntouched : ∀ x : K, last_touch ops (n + 1) x = last_touch ops n x :=
        fun x => last_touch_succ_untouched (touch_at_of_none hop)
      refine ⟨h1, h2, ?_, ?_⟩
      · intro e he
        rw [huntouched e.1]
        exact lt_trans (h3 e he) (Nat.lt_succ_self n)
      · refine List.Pairwise.imp_of_mem ?_ h4
        intro a b _ _ hr
        rw [huntouched a.1, huntouched b.1]
        exact hr
    | some op =>
      rw [state_at_succ_some hop]
      cases op with
      | get k => exact cache_inv_step_get hop ih
      | set k v => exact cache_inv_step_set hop ih

end LRUCacheProofs

/-- C9: for every capacity and every sequence of `LRUCache` get/set
operations, the cache holds at most `capacity` entries after each
operation, and whenever an operation evicts an entry, the evicted key's
most recent touch is strictly earlier than that of every key retained —
recency being updated by both lookup (`__getitem__`) and insertion
(`__setitem__`) — i.e. eviction is strict LRU. -/
theorem c9_lru_strict_eviction {K V : Type} [DecidableEq K]
    (cap : Nat) (ops : List (LruOp K V)) :
    (∀ n, (state_at cap ops n).length ≤ cap)
    ∧ (∀ n e, e ∈ (state_at cap ops n).map Prod.fst →
        e ∉ (state_at cap ops (n + 1)).map Prod.fst →
        ∀ k', k' ∈ (state_at cap ops (n + 1)).map Prod.fst →
          last_touch ops (n + 1) e < last_touch ops (n + 1) k') := by
  constructor
  · intro n
    exact (cache_inv_holds cap ops n).1
  · intro n e he hne k' hk'
    obtain ⟨hlen, hnd, hlt, hpw⟩ := cache_inv_holds cap ops n
    cases hop : ops[n]? with
    | none =>
      rw [state_at_succ_none hop] at hne
      exact absurd he hne
    | some op =>
      rw [state_at_succ_some hop] at hne hk'
      cases op with
      | get k =>
        exact absurd (((lru_get_perm k (state_at cap ops n)).symm.map
          Prod.fst).mem_iff.mp he) hne
      | set k v =>
        have htouch : ∀ x : K, touch_at ops n x = decide (k = x) :=
          fun x => touch_at_some hop x
        have huntouched : ∀ x : K, ¬ (x = k) →
            last_touch ops (n + 1) x = last_touch ops n x := by
          intro x hx
          refine last_touch_succ_untouched ?_
          rw [htouch]
          simp only [decide_eq_false_iff_not]
          exact fun h => hx h.symm
        have hktouched : last_touch ops (n + 1) k = n :=
          last_touch_succ_touched (by rw [htouch]; simp)
        have hstep : lru_step cap (state_at cap ops n) (LruOp.set k v)
            = (if cap < ((state_at cap ops n).filter (fun p => p.1 ≠ k) ++ [(k, v)]).length
               then ((state_at cap ops n).filter (fun p => p.1 ≠ k) ++ [(k, v)]).drop 1
               else (state_at cap ops n).filter (fun p => p.1 ≠ k) ++ [(k, v)]) := rfl
        rw [hstep] at hne hk'
        by_cases hover :
            cap < ((state_at cap ops n).filter (fun p => p.1 ≠ k) ++ [(k, v)]).length
        · rw [if_pos hover] at hne hk'
          -- overflow: the filter removed nothing, so `k` is a fresh key
          have hAlen : ((state_at cap ops n).filter (fun p => p.1 ≠ k)).length
              = (state_at cap ops n).length := by
            have h1 := List.length_filter_le (fun p => (p.1 ≠ k : Bool)) (state_at cap ops n)
            have h2 : ((state_at cap ops n).filter (fun p => p.1 ≠ k) ++ [(k, v)]).length
                = ((state_at cap ops n).filter (fun p => p.1 ≠ k)).length + 1 := by simp
            omega
          have hknotin : ∀ a ∈ state_at cap ops n, ¬ (a.1 = k) := by
            intro a ha
            have := List.filter_length_eq_length.mp hAlen a ha
            simpa using this
          have hAeq : (state_at cap ops n).filter (fun p => p.1 ≠ k)
              = state_at cap ops n :=
            List.filter_eq_self.mpr (fun a ha => by
              simpa using hknotin a ha)
          rw [hAeq] at hne hk'
          cases hlshape : state_at cap ops n with
          | nil =>
            rw [hlshape] at he
            simp at he
          | cons hd tl =>
            rw [hlshape] at hne hk' he hlt hpw hknotin
            have hdrop : ((hd :: tl) ++ [(k, v)]).drop 1 = tl ++ [(k, v)] := rfl
            rw [hdrop] at hne hk'
            -- the evicted key is the front entry's
            have he_hd : e = hd.1 := by
              rw [List.map_cons, List.mem_cons] at he
              rcases he with he | he
              · exact he
              · exact absurd (by rw [List.map_append]; exact List.mem_append_left _ he) hne
            have hlt_e : last_touch ops (n + 1) e = last_touch ops n hd.1 := by
              rw [he_hd]
              exact huntouched hd.1 (hknotin hd (List.mem_cons_self hd tl))
            rcases List.mem_map.mp hk' with ⟨p, hp, hpk⟩
            rcases List.mem_append.mp hp with hptl | hpk'
            · -- a retained old entry: strictly more recent by the sort invariant
              have hpl : p ∈ hd :: tl := List.mem_cons_of_mem hd hptl
              have hpnotk : ¬ (p.1 = k) := hknotin p hpl
              have hrel : last_touch ops n hd.1 < last_touch ops n p.1 :=
                (List.pairwise_cons.mp hpw).1 p hptl
              rw [hlt_e, ← hpk, huntouched p.1 hpnotk]
              exact hrel
            · -- the newly inserted key: touched at this very step
              have hpkv : p = (k, v) := by simpa using hpk'
              rw [hlt_e, ← hpk, hpkv, hktouched]
              exact hlt hd (List.mem_cons_self hd tl)
        · rw [if_neg hover] at hne
          -- no eviction: every old key (and `k`) is still present
          rcases List.mem_map.mp he with ⟨p, hp, hpe⟩
          by_cases hek : p.1 = k
          · refine absurd ?_ hne
            rw [List.map_append, ← hpe, hek]
            exact List.mem_append_right _ (by simp)
          · refine absurd ?_ hne
            rw [List.map_append, ← hpe]
            refine List.mem_append_left _ (List.mem_map.mpr ⟨p, ?_, rfl⟩)
            exact List.mem_filter.mpr ⟨hp, by simpa using hek⟩

/-- C9 witness: capacity 2, session `set 1, set 2, get 1, set 3` — the
insertion of key 3 evicts key 2, whose last touch (step 1) is strictly
earlier than those of the retained keys 1 (step 2) and 3 (step 3). -/
theorem c9_witness :
    last_touch [LruOp.set 1 10, LruOp.set 2 20, LruOp.get 1, LruOp.set 3 30] 4 2
      < last_touch [LruOp.set 1 10, LruOp.set 2 20, LruOp.get 1, LruOp.set 3 30] 4 1 :=
  (c9_lru_strict_eviction 2
      [LruOp.set 1 10, LruOp.set 2 20, LruOp.get 1, LruOp.set 3 30]).2
    3 2 (by decide) (by decide) 1 (by decide)

/-! ### C10 — the full-reset tag deactivates every active macro -/

/-- Computation rule for `Except` bind on a success. -/
theorem except_ok_bind {ε α β : Type} (a : α) (f : α → Except ε β) :
    (Except.ok a >>= f) = f a := rfl

/-- Computation rule for `Except` bind on a failure. -/
theorem except_error_bind {ε α β : Type} (e : ε) (f : α → Except ε β) :
    ((Except.error e : Except ε α) >>= f) = Except.error e := rfl

/-- Computation rule for `Except` map on a success. -/
theorem except_ok_map {ε α β : Type} (a : α) (f : α → β) :
    (f <$> (Except.ok a : Except ε α)) = (Except.ok (f a) : Except ε β) := rfl

/-- Computation rule for `Except` map on a failure. -/
theorem except_error_map {ε α β : Type} (e : ε) (f : α → β) :
    (f <$> (Except.error e : Except ε α)) = (Except.error e : Except ε β) := rfl

/-- Computation rule for `Except` pure. -/
theorem except_pure {ε α : Type} (a : α) :
    (pure a : Except ε α) = Except.ok a := rfl

/-- Step rule for `process_tags` on the empty tag list. -/
theorem pt_nil {ctx : MarkupContext} {pfx : CStr} {m : MacroMap} :
    process_tags ctx pfx [] m = .ok (m, []) := rfl

/-- Step rule for `process_tags` on a leading `/` tag: the active set is
cleared and the tag is kept. -/
theorem pt_cons_slash {ctx : MarkupContext} {pfx : CStr} {rest : List CStr}
    {m : MacroMap} :
    process_tags ctx pfx ("/".data :: rest) m
      = (process_tags ctx pfx rest []) >>= fun r => .ok (r.1, "/".data :: r.2) := rfl

/-- Step rule for `process_tags` on a non-macro tag: the active set is
unchanged and the tag is kept. -/
theorem pt_cons_keep {ctx : MarkupContext} {pfx tag : CStr} {rest : List CStr}
    {m : MacroMap} (h1 : ¬ tag = "/".data)
    (h2 : ¬ (List.isPrefixOf ['!'] tag = true ∨ List.isPrefixOf "/!".data tag = true)) :
    process_tags ctx pfx (tag :: rest) m
      = (process_tags ctx pfx rest m) >>= fun r => .ok (r.1, tag :: r.2) := by
  conv_lhs => unfold process_tags
  rw [if_neg h1, if_pos h2]

/-- Step rule for `process_tags` on `/!name` with the entry active. -/
theorem pt_cons_unset_hit {ctx : MarkupContext} {pfx tag : CStr} {rest : List CStr}
    {m : MacroMap} (h1 : ¬ tag = "/".data)
    (h3 : List.isPrefixOf "/!".data tag = true)
    (hhas : map_has m (tag.drop 1) = true) :
    process_tags ctx pfx (tag :: rest) m
      = process_tags ctx pfx rest (map_del m (tag.drop 1)) := by
  conv_lhs => unfold process_tags
  rw [if_neg h1, if_neg (not_not_intro (Or.inr h3)), if_pos h3, if_pos hhas]

/-- Step rule for `process_tags` on `/!name` with the entry inactive. -/
theorem pt_cons_unset_miss {ctx : MarkupContext} {pfx tag : CStr} {rest : List CStr}
    {m : MacroMap} (h1 : ¬ tag = "/".data)
    (h3 : List.isPrefixOf "/!".data tag = true)
    (hhas : map_has m (tag.drop 1) = false) :
    process_tags ctx pfx (tag :: rest) m
      = .error (.semantics_err (tag.drop 1)
          (some ("Cannot unset a macro when that isn't set.".data)) ("macro".data)) := by
  conv_lhs => unfold process_tags
  rw [if_neg h1, if_neg (not_not_intro (Or.inr h3)), if_pos h3,
    if_neg (by rw [hhas]; decide)]

/-- Step rule for `process_tags` on a registered `!name(...)` tag. -/
theorem pt_cons_mcr {ctx : MarkupContext} {pfx tag : CStr} {rest : List CStr}
    {m : MacroMap} {f : MacroType} (h1 : ¬ tag = "/".data)
    (hA : List.isPrefixOf ['!'] tag = true)
    (hB : List.isPrefixOf "/!".data tag = false)
    (hma : assoc_get ctx.macros (apply_pfx (parse_mcr_tag tag).1 pfx) = some f) :
    process_tags ctx pfx (tag :: rest) m
      = process_tags ctx pfx rest
          (map_set m (parse_mcr_tag tag).1 (f, (parse_mcr_tag tag).2)) := by
  conv_lhs => unfold process_tags
  rw [if_neg h1, if_neg (not_not_intro (Or.inl hA)), if_neg (by rw [hB]; decide)]
  simp only [hma]

/-- Step rule for `process_tags` on an unregistered `!name(...)` tag. -/
theorem pt_cons_mcr_miss {ctx : MarkupContext} {pfx tag : CStr} {rest : List CStr}
    {m : MacroMap} (h1 : ¬ tag = "/".data)
    (hA : List.isPrefixOf ['!'] tag = true)
    (hB : List.isPrefixOf "/!".data tag = false)
    (hma : assoc_get ctx.macros (apply_pfx (parse_mcr_tag tag).1 pfx) = none) :
    process_tags ctx pfx (tag :: rest) m
      = .error (.name_err (apply_pfx (parse_mcr_tag tag).1 pfx) none ("macro".data)) := by
  conv_lhs => unfold process_tags
  rw [if_neg h1, if_neg (not_not_intro (Or.inl hA)), if_neg (by rw [hB]; decide)]
  simp only [hma]

/-- C10: during pre-processing a `/` tag clears the whole active-macro
set: processing `l1 ++ ["/"] ++ l2` equals processing `l1`, discarding the
macro state it produced, and processing `l2` from the empty set — so
plain text after the group is transformed only by macros activated after
the reset, and no error is raised for the implicitly deactivated ones.
Concretely, with an active callable appending `"X"`, the text after
`"[/]"` passes through untransformed. -/
theorem c10_full_reset_clears_macros :
    (∀ (ctx : MarkupContext) (pfx : CStr) (l1 l2 : List CStr) (m : MacroMap),
      process_tags ctx pfx (l1 ++ "/".data :: l2) m = do
        let r1 ← process_tags ctx pfx l1 m
        let r2 ← process_tags ctx pfx l2 []
        pure (r2.1, r1.2 ++ "/".data :: r2.2))
    ∧ (zml_pre_process ⟨[], [("!m".data, fun tx _ => tx ++ "X".data)]⟩ []
        ("[!m]a[/]b".data) = .ok ("aX[/]b".data)) := by
  constructor
  · intro ctx pfx l1 l2 m
    induction l1 generalizing m with
    | nil =>
      rw [List.nil_append, pt_cons_slash, pt_nil, except_ok_bind]
      cases hp : process_tags ctx pfx l2 [] with
      | error e => simp [hp, except_error_bind]
      | ok r => simp [hp, except_ok_bind, except_pure]
    | cons tag l1' ih =>
      rw [List.cons_append]
      by_cases h1 : tag = "/".data
      · subst h1
        rw [pt_cons_slash, pt_cons_slash, ih]
        cases hp1 : process_tags ctx pfx l1' [] with
        | error e => simp [except_error_bind]
        | ok r1 =>
          cases hp2 : process_tags ctx pfx l2 [] with
          | error e => simp [except_ok_bind, except_error_bind, except_pure]
          | ok r2 => simp [except_ok_bind, except_error_bind, except_pure]
      · by_cases h2 : ¬ (List.isPrefixOf ['!'] tag = true ∨ List.isPrefixOf "/!".data tag = true)
        · rw [pt_cons_keep h1 h2, pt_cons_keep h1 h2, ih]
          cases hp1 : process_tags ctx pfx l1' m with
          | error e => simp [except_error_bind]
          | ok r1 =>
            cases hp2 : process_tags ctx pfx l2 [] with
            | error e => simp [except_ok_bind, except_error_bind, except_pure]
            | ok r2 => simp [except_ok_bind, except_error_bind, except_pure]
        · by_cases h3 : List.isPrefixOf "/!".data tag = true
          · cases hhas : map_has m (tag.drop 1) with
            | true =>
              rw [pt_cons_unset_hit h1 h3 hhas, pt_cons_unset_hit h1 h3 hhas, ih]
            | false =>
              rw [pt_cons_unset_miss h1 h3 hhas, pt_cons_unset_miss h1 h3 hhas,
                except_error_bind]
          · have hA : List.isPrefixOf ['!'] tag = true := by
              rcases not_not.mp h2 with hA | hB
              · exact hA
              · exact absurd hB h3
            have hB : List.isPrefixOf "/!".data tag = false := by
              cases hcase : List.isPrefixOf "/!".data tag
              · rfl
              · exact absurd hcase h3
            cases hma : assoc_get ctx.macros (apply_pfx (parse_mcr_tag tag).1 pfx) with
            | none =>
              rw [pt_cons_mcr_miss h1 hA hB hma, pt_cons_mcr_miss h1 hA hB hma,
                except_error_bind]
            | some f =>
              rw [pt_cons_mcr h1 hA hB hma, pt_cons_mcr h1 hA hB hma, ih]
  · decide

end Zenith
